import Mathlib

/-!
Verification of the ctfsh CTF platform (Go) against its specification.

The persistence layer (`internal/db`), the SFTP handler
(`internal/download/download.go`), the container-IP lookup
(`internal/instance/incus.go`), the direct-tcpip tunnel handler and the
instance session handler are shallowly embedded below.  SQLite tables become
lists of records; `database/sql` statements become pure state transformers;
stateful handlers become functions from their inputs to the list of
observable effects they perform.
-/

namespace Ctfsh

/-! ## Data model (schema from `internal/db/db.go`)

`users(id, username UNIQUE, ssh_key UNIQUE, team_id NULL)`,
`teams(id, name UNIQUE, join_code UNIQUE)`,
`challenges(id, name UNIQUE, points, flag, ...)`,
`submissions(id, user_id, challenge_id, flag, correct, timestamp)`.
Only the columns the verified queries touch are carried. -/

/-- A row of the `users` table. -/
structure User where
  id : Int
  username : String
  sshKey : String
  teamId : Option Int
deriving DecidableEq, Repr

/-- A row of the `teams` table (the `score` column is never read by the
scoreboard query, which recomputes scores from submissions). -/
structure TeamRow where
  id : Int
  name : String
  joinCode : String
deriving DecidableEq, Repr

/-- A row of the `challenges` table (columns used by the verified queries). -/
structure Challenge where
  id : Int
  name : String
  points : Int
  flag : String
deriving DecidableEq, Repr

/-- A row of the `submissions` table.  Rows are append-only; the autoincrement
id and timestamp are not needed by any verified query and are omitted. -/
structure Submission where
  userId : Int
  challengeId : Int
  flag : String
  correct : Bool
deriving DecidableEq, Repr

/-- The embedded SQLite database state. -/
structure DB where
  users : List User
  teams : List TeamRow
  challenges : List Challenge
  submissions : List Submission
deriving DecidableEq, Repr

/-! ## Submissions (`internal/db/submission.go`) -/

/-- Predicate of the SQL filter
`user_id = ? AND challenge_id = ? AND correct = 1`. -/
def isCorrectSub (userId challengeId : Int) (s : Submission) : Bool :=
  s.userId == userId && s.challengeId == challengeId && s.correct

/-- `SELECT EXISTS(SELECT 1 FROM submissions WHERE user_id = ? AND
challenge_id = ? AND correct = 1)` — the already-solved check in `SubmitFlag`. -/
def hasSolved (db : DB) (userId challengeId : Int) : Bool :=
  db.submissions.any (isCorrectSub userId challengeId)

/-- Number of rows with `user = u, challenge = c, correct = true`. -/
def correctCount (db : DB) (userId challengeId : Int) : Nat :=
  (db.submissions.filter (isCorrectSub userId challengeId)).length

/-- Errors surfaced by `SubmitFlag`: the flag query finding no challenge row,
and the distinct "you have already solved this challenge" error. -/
inductive SubmitError
  | challengeNotFound
  | alreadySolved
deriving DecidableEq, Repr

/-- `db.SubmitFlag(userID, challengeID, flag)`: look up the stored flag,
compare after `strings.TrimSpace` on both sides, reject when a correct
submission for the pair already exists, otherwise insert the submission row
(with its computed `correct` bit) and return whether it was correct. -/
def SubmitFlag (db : DB) (userId challengeId : Int) (flag : String) :
    Except SubmitError Bool × DB :=
  match db.challenges.find? (fun c => c.id == challengeId) with
  | none => (.error .challengeNotFound, db)
  | some chal =>
    if hasSolved db userId challengeId then
      (.error .alreadySolved, db)
    else
      let correct := flag.trim == chal.flag.trim
      (.ok correct,
       { db with submissions :=
           db.submissions ++ [{ userId := userId, challengeId := challengeId,
                                flag := flag, correct := correct }] })

/-- Run a sequence of `SubmitFlag` calls, threading the database state. -/
def runSubmits (db : DB) : List (Int × Int × String) → DB
  | [] => db
  | (u, c, f) :: rest => runSubmits (SubmitFlag db u c f).2 rest

section SubmitLemmas

theorem hasSolved_eq_false_iff (db : DB) (u c : Int) :
    hasSolved db u c = false ↔ correctCount db u c = 0 := by
  simp [hasSolved, correctCount, List.any_eq_true, List.length_eq_zero,
    List.filter_eq_nil_iff]

/-- `SubmitFlag` never removes submission rows: the new submission list is
the old one, possibly with one row appended. -/
theorem SubmitFlag_submissions (db : DB) (u c : Int) (f : String) :
    (SubmitFlag db u c f).2.submissions = db.submissions ∨
    ∃ s, (SubmitFlag db u c f).2.submissions = db.submissions ++ [s] := by
  unfold SubmitFlag
  cases db.challenges.find? (fun ch => ch.id == c) with
  | none => exact Or.inl rfl
  | some chal =>
    by_cases h : hasSolved db u c
    · simp [h]
    · simp [h]

/-- Once a correct submission for a pair exists, it survives any further
`SubmitFlag` call. -/
theorem hasSolved_mono (db : DB) (u c u2 c2 : Int) (f : String)
    (h : hasSolved db u c = true) :
    hasSolved (SubmitFlag db u2 c2 f).2 u c = true := by
  rcases SubmitFlag_submissions db u2 c2 f with heq | ⟨s, heq⟩
  · simpa [hasSolved, heq] using h
  · simp only [hasSolved, heq, List.any_append]
    simp only [hasSolved] at h
    simp [h]

/-- `hasSolved` survives any sequence of submissions. -/
theorem hasSolved_runSubmits (db : DB) (u c : Int)
    (calls : List (Int × Int × String)) (h : hasSolved db u c = true) :
    hasSolved (runSubmits db calls) u c = true := by
  induction calls generalizing db with
  | nil => simpa [runSubmits] using h
  | cons hd tl ih =>
    rcases hd with ⟨u2, c2, f⟩
    exact ih _ (hasSolved_mono db u c u2 c2 f h)

/-- One `SubmitFlag` call preserves the correct-count bound. -/
theorem correctCount_le_one_step (db : DB) (u c u2 c2 : Int) (f : String)
    (h : correctCount db u c ≤ 1) :
    correctCount (SubmitFlag db u2 c2 f).2 u c ≤ 1 := by
  unfold SubmitFlag
  cases hfind : db.challenges.find? (fun ch => ch.id == c2) with
  | none => simpa [correctCount] using h
  | some chal =>
    by_cases hs : hasSolved db u2 c2
    · simpa [hs, correctCount] using h
    · simp only [hs, if_false, Bool.false_eq_true]
      by_cases hmatch :
          isCorrectSub u c
            ⟨u2, c2, f, f.trim == chal.flag.trim⟩ = true
      · have huc : u2 = u ∧ c2 = c := by
          simp only [isCorrectSub, Bool.and_eq_true, beq_iff_eq] at hmatch
          exact ⟨hmatch.1.1, hmatch.1.2⟩
        have hzero : correctCount db u c = 0 := by
          rw [← hasSolved_eq_false_iff]
          rw [huc.1, huc.2] at hs
          simpa using hs
        simp only [correctCount, List.filter_append, List.length_append]
        simp only [correctCount] at hzero
        rw [hzero]
        simp [hmatch, List.filter]
      · simp only [correctCount, List.filter_append, List.length_append]
        simp only [correctCount] at h
        have : List.filter (isCorrectSub u c)
            [⟨u2, c2, f, f.trim == chal.flag.trim⟩] = [] := by
          simp [List.filter, hmatch]
        rw [this]
        simpa using h

/-- The correct-count bound is preserved by any sequence of submissions. -/
theorem correctCount_le_one_runSubmits (db : DB) (u c : Int)
    (calls : List (Int × Int × String)) (h : correctCount db u c ≤ 1) :
    correctCount (runSubmits db calls) u c ≤ 1 := by
  induction calls generalizing db with
  | nil => simpa [runSubmits] using h
  | cons hd tl ih =>
    rcases hd with ⟨u2, c2, f⟩
    exact ih _ (correctCount_le_one_step db u c u2 c2 f h)

theorem SubmitFlag_of_alreadySolved (d : DB) (u c : Int) (f2 : String)
    (ch2 : Challenge)
    (hfind : d.challenges.find? (fun ch => ch.id == c) = some ch2)
    (hs : hasSolved d u c = true) :
    SubmitFlag d u c f2 = (.error .alreadySolved, d) := by
  unfold SubmitFlag
  rw [hfind]
  simp [hs]

theorem SubmitFlag_challenges (db : DB) (u c : Int) (f : String) :
    (SubmitFlag db u c f).2.challenges = db.challenges := by
  unfold SubmitFlag
  cases db.challenges.find? (fun ch => ch.id == c) with
  | none => rfl
  | some ch2 =>
    by_cases hs : hasSolved db u c <;> simp [hs]

theorem runSubmits_challenges (db : DB) (calls : List (Int × Int × String)) :
    (runSubmits db calls).challenges = db.challenges := by
  induction calls generalizing db with
  | nil => rfl
  | cons hd tl ih =>
    rcases hd with ⟨u2, c2, f3⟩
    simp only [runSubmits]
    rw [ih, SubmitFlag_challenges]

end SubmitLemmas

/-- Claim C1: for every user and challenge, the first `SubmitFlag` call with
the correct flag returns `true` and records the correct submission; every
subsequent call for the same pair — after any interleaved submissions by
anyone, and whatever the newly submitted flag — returns the AlreadySolved
error and leaves the database unchanged, and the number of rows with
`user = u, challenge = c, correct = true` never exceeds 1. -/
theorem submitFlag_first_correct_then_locked (db : DB) (u c : Int) (f : String)
    (chal : Challenge)
    (hfind : db.challenges.find? (fun ch => ch.id == c) = some chal)
    (hflag : f.trim = chal.flag.trim)
    (hfirst : hasSolved db u c = false) :
    (SubmitFlag db u c f).1 = .ok true ∧
    correctCount (SubmitFlag db u c f).2 u c = 1 ∧
    (∀ calls f2,
      (SubmitFlag (runSubmits (SubmitFlag db u c f).2 calls) u c f2).1 =
        .error .alreadySolved ∧
      (SubmitFlag (runSubmits (SubmitFlag db u c f).2 calls) u c f2).2 =
        runSubmits (SubmitFlag db u c f).2 calls) ∧
    (∀ calls, correctCount (runSubmits (SubmitFlag db u c f).2 calls) u c ≤ 1) := by
  have hres : SubmitFlag db u c f =
      (.ok true,
       { db with submissions :=
           db.submissions ++ [⟨u, c, f, true⟩] }) := by
    unfold SubmitFlag
    rw [hfind]
    simp [hfirst, hflag]
  have hsolved2 : hasSolved (SubmitFlag db u c f).2 u c = true := by
    rw [hres]
    simp [hasSolved, isCorrectSub]
  refine ⟨by rw [hres], ?_, ?_, ?_⟩
  · rw [hres]
    have hzero : correctCount db u c = 0 := (hasSolved_eq_false_iff db u c).1 hfirst
    simp only [correctCount] at hzero ⊢
    simp only [List.filter_append, List.length_append, hzero]
    simp [isCorrectSub]
  · intro calls f2
    have hsolved3 : hasSolved (runSubmits (SubmitFlag db u c f).2 calls) u c = true :=
      hasSolved_runSubmits _ u c calls hsolved2
    have hfind3 : (runSubmits (SubmitFlag db u c f).2 calls).challenges.find?
        (fun ch => ch.id == c) = some chal := by
      rw [runSubmits_challenges, SubmitFlag_challenges]
      exact hfind
    have hlock := SubmitFlag_of_alreadySolved _ u c f2 chal hfind3 hsolved3
    exact ⟨by rw [hlock], by rw [hlock]⟩
  · intro calls
    apply correctCount_le_one_runSubmits
    rw [hres]
    have hzero : correctCount db u c = 0 := (hasSolved_eq_false_iff db u c).1 hfirst
    simp only [correctCount] at hzero ⊢
    simp only [List.filter_append, List.length_append, hzero]
    simp [isCorrectSub]

/-- A small concrete database: one registered user, one challenge, no
submissions yet. -/
def sampleDb : DB :=
  { users := [⟨1, "alice", "key-alice", none⟩],
    teams := [],
    challenges := [⟨1, "easy", 100, "ctf{hi}"⟩],
    submissions := [] }

/-- Witness for claim C1 at a concrete database. -/
theorem submitFlag_first_correct_then_locked_witness :
    (sampleDb.challenges.find? (fun ch => ch.id == 1) =
        some ⟨1, "easy", 100, "ctf{hi}"⟩ ∧
      "ctf{hi}".trim = ("ctf{hi}" : String).trim ∧
      hasSolved sampleDb 1 1 = false) ∧
    ((SubmitFlag sampleDb 1 1 "ctf{hi}").1 = .ok true ∧
      correctCount (SubmitFlag sampleDb 1 1 "ctf{hi}").2 1 1 = 1 ∧
      (∀ calls f2,
        (SubmitFlag (runSubmits (SubmitFlag sampleDb 1 1 "ctf{hi}").2 calls) 1 1 f2).1 =
          .error .alreadySolved ∧
        (SubmitFlag (runSubmits (SubmitFlag sampleDb 1 1 "ctf{hi}").2 calls) 1 1 f2).2 =
          runSubmits (SubmitFlag sampleDb 1 1 "ctf{hi}").2 calls) ∧
      (∀ calls,
        correctCount (runSubmits (SubmitFlag sampleDb 1 1 "ctf{hi}").2 calls) 1 1 ≤ 1)) :=
  ⟨⟨by decide, rfl, by decide⟩,
    submitFlag_first_correct_then_locked sampleDb 1 1 "ctf{hi}"
      ⟨1, "easy", 100, "ctf{hi}"⟩ (by decide) rfl (by decide)⟩

/-! ## Scoreboard (`internal/db/scoreboard.go`)

`GetScoreboard` runs two queries.  The first aggregates team scores: teams
are left-joined with their members, each member with the deduplicated
`(user_id, challenge_id)` pairs of their correct submissions
(`GROUP BY s.user_id, s.challenge_id`), each pair with the challenge row
carrying its points; `COALESCE(SUM(c.points), 0)` is grouped by team and the
rows are ordered by `score DESC, t.name ASC`.  The second query computes the
same per-user sum for team-less users, ordered by `score DESC, u.username
ASC`, and those rows are appended after the team rows with negated ids. -/

/-- Deduplicate a list of `(user_id, challenge_id)` pairs, as the
`GROUP BY s.user_id, s.challenge_id` subquery does (one output row per
distinct pair; output order is irrelevant to every verified property). -/
def groupPairs : List (Int × Int) → List (Int × Int)
  | [] => []
  | p :: rest => if rest.contains p then groupPairs rest else p :: groupPairs rest

/-- The deduplicated correct-submission pairs (`solved_challs` subquery). -/
def solvedPairs (db : DB) : List (Int × Int) :=
  groupPairs ((db.submissions.filter (fun s => s.correct)).map
    (fun s => (s.userId, s.challengeId)))

/-- Points of the challenge row joined on `challenge_id` (`0` when the left
join finds no challenge, matching `COALESCE(SUM(...), 0)` over NULLs). -/
def lookupPoints (chs : List Challenge) (challengeId : Int) : Int :=
  match chs.find? (fun c => c.id == challengeId) with
  | some c => c.points
  | none => 0

/-- Sum of challenge points over the deduplicated solved pairs of one user. -/
def userSolvedPoints (db : DB) (userId : Int) : Int :=
  (((solvedPairs db).filter (fun p => p.1 == userId)).map
    (fun p => lookupPoints db.challenges p.2)).sum

/-- `SELECT ... FROM users WHERE team_id = ?` — the members of a team. -/
def teamMembers (db : DB) (teamId : Int) : List User :=
  db.users.filter (fun u => u.teamId == some teamId)

/-- The `score` column computed for one team by the scoreboard query. -/
def teamScore (db : DB) (teamId : Int) : Int :=
  ((teamMembers db teamId).map (fun u => userSolvedPoints db u.id)).sum

/-- Number of deduplicated solved pairs of one user. -/
def userPairCount (db : DB) (userId : Int) : Nat :=
  ((solvedPairs db).filter (fun p => p.1 == userId)).length

/-- The `COUNT(u.id)` column: one joined row per solved pair per member, and
still one row for a member without solves (left joins preserve the row). -/
def teamPlayerCount (db : DB) (teamId : Int) : Nat :=
  ((teamMembers db teamId).map (fun u => max 1 (userPairCount db u.id))).sum

/-- One row of the scoreboard result (the Go `Team` struct as scanned). -/
structure Entry where
  id : Int
  name : String
  score : Int
  playerCount : Nat
deriving DecidableEq, Repr

/-- `ORDER BY score DESC, name ASC`: `a` sorts no later than `b`. -/
def entryLe (a b : Entry) : Bool :=
  decide (b.score < a.score) ||
    (a.score == b.score && decide (a.name ≤ b.name))

/-- Insert into a list sorted by `entryLe`. -/
def insertEntry (a : Entry) : List Entry → List Entry
  | [] => [a]
  | b :: rest => if entryLe a b then a :: b :: rest else b :: insertEntry a rest

/-- Sort by `entryLe` (insertion sort; the SQL `ORDER BY`). -/
def sortEntries : List Entry → List Entry
  | [] => []
  | a :: rest => insertEntry a (sortEntries rest)

/-- The team rows of the scoreboard, ordered by `score DESC, t.name ASC`. -/
def teamEntries (db : DB) : List Entry :=
  sortEntries (db.teams.map (fun t =>
    { id := t.id, name := t.name, score := teamScore db t.id,
      playerCount := teamPlayerCount db t.id }))

/-- The solo rows: team-less users, with negated id marking a solo entry,
ordered by `score DESC, u.username ASC`. -/
def soloEntries (db : DB) : List Entry :=
  sortEntries ((db.users.filter (fun u => u.teamId == none)).map (fun u =>
    { id := -u.id, name := u.username, score := userSolvedPoints db u.id,
      playerCount := 1 }))

/-- `db.GetScoreboard()`: the team rows followed by the solo rows. -/
def GetScoreboard (db : DB) : List Entry :=
  teamEntries db ++ soloEntries db

/-- Adjacent-pairs sortedness check for the scoreboard ordering. -/
def entriesSorted : List Entry → Bool
  | [] => true
  | [_] => true
  | a :: b :: rest => entryLe a b && entriesSorted (b :: rest)

/-! Spec-side scoring formula, stated in the specification's words: a team's
score is the sum of `challenge.points` over the set of `(user, challenge)`
pairs where the user is currently a team member and at least one correct
submission exists. -/

/-- Does some correct submission for `(userId, challengeId)` exist? -/
def hasCorrectSub (db : DB) (userId challengeId : Int) : Bool :=
  db.submissions.any (fun s => s.correct && s.userId == userId &&
    s.challengeId == challengeId)

/-- Spec formula, per member: points summed over the challenges this user
has correctly submitted, each challenge once. -/
def specUserScore (db : DB) (userId : Int) : Int :=
  ((db.challenges.filter (fun c => hasCorrectSub db userId c.id)).map
    (fun c => c.points)).sum

/-- Spec formula for a team: the sum over its current members of their
per-member scores — equivalently, over the set of `(user, challenge)` pairs. -/
def specTeamScore (db : DB) (teamId : Int) : Int :=
  ((teamMembers db teamId).map (fun u => specUserScore db u.id)).sum

section ScoreboardLemmas

theorem groupPairs_cons (q : Int × Int) (rest : List (Int × Int)) :
    groupPairs (q :: rest) =
      if rest.contains q then groupPairs rest else q :: groupPairs rest := rfl

theorem mem_groupPairs (p : Int × Int) (l : List (Int × Int)) :
    p ∈ groupPairs l ↔ p ∈ l := by
  induction l with
  | nil => simp [groupPairs]
  | cons q rest ih =>
    by_cases hq : q ∈ rest
    · rw [groupPairs_cons, if_pos (List.elem_iff.2 hq), ih]
      constructor
      · exact fun h => List.mem_cons_of_mem q h
      · intro h
        rcases List.mem_cons.1 h with h | h
        · rw [h]; exact hq
        · exact h
    · rw [groupPairs_cons,
        if_neg (fun hc => hq (List.elem_iff.1 hc))]
      simp [ih]

theorem groupPairs_nodup (l : List (Int × Int)) : (groupPairs l).Nodup := by
  induction l with
  | nil => simp [groupPairs]
  | cons q rest ih =>
    by_cases hq : q ∈ rest
    · rw [groupPairs_cons, if_pos (List.elem_iff.2 hq)]
      exact ih
    · rw [groupPairs_cons,
        if_neg (fun hc => hq (List.elem_iff.1 hc))]
      exact List.Nodup.cons (fun hmem => hq ((mem_groupPairs q rest).1 hmem)) ih

theorem lookupPoints_of_not_mem (chs : List Challenge) (cid : Int)
    (h : cid ∉ chs.map (fun c => c.id)) : lookupPoints chs cid = 0 := by
  unfold lookupPoints
  have : chs.find? (fun c => c.id == cid) = none := by
    rw [List.find?_eq_none]
    intro x hx
    simp only [beq_iff_eq]
    intro hcontra
    exact h (List.mem_map.2 ⟨x, hx, hcontra⟩)
  rw [this]

theorem lookupPoints_cons (ch : Challenge) (chs : List Challenge) (cid : Int) :
    lookupPoints (ch :: chs) cid =
      if ch.id = cid then ch.points else lookupPoints chs cid := by
  unfold lookupPoints
  rw [List.find?_cons]
  by_cases h : ch.id = cid
  · simp [h]
  · have hb : (ch.id == cid) = false := by simpa using h
    simp [hb, h]

theorem sum_map_ite_eq (L : List Int) (x A : Int) (hnd : L.Nodup) :
    (L.map (fun c => if x = c then A else 0)).sum =
      if x ∈ L then A else 0 := by
  induction L with
  | nil => simp
  | cons c rest ih =>
    rcases List.nodup_cons.1 hnd with ⟨hc, hrest⟩
    by_cases hx : x = c
    · subst hx
      simp only [List.map_cons, List.sum_cons, if_pos rfl, List.mem_cons,
        true_or, if_true]
      rw [ih hrest, if_neg hc]
      simp
    · simp only [List.map_cons, List.sum_cons, if_neg hx]
      rw [ih hrest]
      have hiff : x ∈ c :: rest ↔ x ∈ rest := by simp [List.mem_cons, hx]
      rw [if_congr hiff rfl rfl]
      simp

theorem sum_lookupPoints_eq_sum_filter (chs : List Challenge) (L : List Int)
    (hL : L.Nodup) (hch : (chs.map (fun c => c.id)).Nodup) :
    (L.map (lookupPoints chs)).sum =
      ((chs.filter (fun c => L.contains c.id)).map (fun c => c.points)).sum := by
  induction chs with
  | nil =>
    rw [show lookupPoints [] = (fun _ : Int => (0 : Int)) from rfl]
    simp
  | cons ch rest ih =>
    rw [List.map_cons] at hch
    rcases List.nodup_cons.1 hch with ⟨hid, hrest⟩
    have hsplit : ∀ c ∈ L, lookupPoints (ch :: rest) c =
        lookupPoints rest c + (if ch.id = c then ch.points else 0) := by
      intro c _
      rw [lookupPoints_cons]
      by_cases h : ch.id = c
      · have hzero : lookupPoints rest c = 0 := by
          apply lookupPoints_of_not_mem
          rw [← h]
          exact hid
        simp [h, hzero]
      · simp [h]
    rw [List.map_congr_left hsplit, List.sum_map_add, ih hrest,
      sum_map_ite_eq L ch.id ch.points hL]
    by_cases hmem : ch.id ∈ L
    · rw [if_pos hmem]
      have hcont : L.contains ch.id = true := List.elem_iff.2 hmem
      simp only [List.filter_cons, hcont, if_true, List.map_cons, List.sum_cons]
      ring
    · rw [if_neg hmem]
      have hcont : L.contains ch.id = false := by
        by_contra h
        simp only [Bool.not_eq_false] at h
        exact hmem (List.elem_iff.1 h)
      simp only [List.filter_cons, hcont, Bool.false_eq_true, if_false]
      simp

end ScoreboardLemmas

section ScoreEquivalence

theorem bool_eq_of_iff {a b : Bool} (h : a = true ↔ b = true) : a = b := by
  cases a <;> cases b <;> simp_all

theorem mem_snd_filter_solvedPairs (db : DB) (uid cid : Int) :
    cid ∈ ((solvedPairs db).filter (fun p => p.1 == uid)).map Prod.snd ↔
      hasCorrectSub db uid cid = true := by
  rw [List.mem_map]
  constructor
  · rintro ⟨p, hp, hsnd⟩
    rcases List.mem_filter.1 hp with ⟨hps, hpu⟩
    have hpu2 : p.1 = uid := by simpa using hpu
    have hpair : p ∈ (db.submissions.filter (fun s => s.correct)).map
        (fun s => (s.userId, s.challengeId)) := (mem_groupPairs p _).1 hps
    obtain ⟨s, hs, heq⟩ := List.mem_map.1 hpair
    rcases List.mem_filter.1 hs with ⟨hsm, hsc⟩
    unfold hasCorrectSub
    rw [List.any_eq_true]
    refine ⟨s, hsm, ?_⟩
    have h1 : s.userId = uid := by
      rw [show s.userId = p.1 from (congrArg Prod.fst heq).symm ▸ rfl, hpu2]
    have h2 : s.challengeId = cid := by
      rw [show s.challengeId = p.2 from (congrArg Prod.snd heq).symm ▸ rfl, hsnd]
    have hsc2 : s.correct = true := by simpa using hsc
    simp [hsc2, h1, h2]
  · intro h
    unfold hasCorrectSub at h
    rw [List.any_eq_true] at h
    obtain ⟨s, hsm, hprop⟩ := h
    simp only [Bool.and_eq_true, beq_iff_eq] at hprop
    refine ⟨(s.userId, s.challengeId), ?_, by simpa using hprop.2⟩
    apply List.mem_filter.2
    constructor
    · exact (mem_groupPairs _ _).2
        (List.mem_map.2 ⟨s, List.mem_filter.2 ⟨hsm, by simpa using hprop.1.1⟩, rfl⟩)
    · simpa using hprop.1.2

theorem userSolvedPoints_eq_spec (db : DB) (uid : Int)
    (hch : (db.challenges.map (fun c => c.id)).Nodup) :
    userSolvedPoints db uid = specUserScore db uid := by
  have hP : ((solvedPairs db).filter (fun p => p.1 == uid)).Nodup :=
    List.Nodup.filter _ (groupPairs_nodup _)
  have hL : (((solvedPairs db).filter (fun p => p.1 == uid)).map Prod.snd).Nodup := by
    apply List.Nodup.map_on ?_ hP
    intro x hx y hy hxy
    have hx1 : x.1 = uid := by
      simpa using (List.mem_filter.1 hx).2
    have hy1 : y.1 = uid := by
      simpa using (List.mem_filter.1 hy).2
    exact Prod.ext (hx1.trans hy1.symm) hxy
  have hmain := sum_lookupPoints_eq_sum_filter db.challenges
    (((solvedPairs db).filter (fun p => p.1 == uid)).map Prod.snd) hL hch
  have hmaps : userSolvedPoints db uid =
      ((((solvedPairs db).filter (fun p => p.1 == uid)).map Prod.snd).map
        (lookupPoints db.challenges)).sum := by
    unfold userSolvedPoints
    rw [List.map_map]
    rfl
  rw [hmaps, hmain]
  unfold specUserScore
  have hfeq : db.challenges.filter
      (fun c => (((solvedPairs db).filter (fun p => p.1 == uid)).map
        Prod.snd).contains c.id) =
      db.challenges.filter (fun c => hasCorrectSub db uid c.id) := by
    apply List.filter_congr
    intro c _
    apply bool_eq_of_iff
    rw [List.elem_iff]
    exact mem_snd_filter_solvedPairs db uid c.id
  rw [hfeq]

theorem teamScore_eq_spec (db : DB) (teamId : Int)
    (hch : (db.challenges.map (fun c => c.id)).Nodup) :
    teamScore db teamId = specTeamScore db teamId := by
  unfold teamScore specTeamScore
  congr 1
  apply List.map_congr_left
  intro u _
  exact userSolvedPoints_eq_spec db u.id hch

theorem mem_insertEntry (a x : Entry) (l : List Entry) :
    x ∈ insertEntry a l ↔ x = a ∨ x ∈ l := by
  induction l with
  | nil => simp [insertEntry]
  | cons b rest ih =>
    unfold insertEntry
    by_cases h : entryLe a b
    · simp [h]
    · simp only [h, Bool.false_eq_true, if_false, List.mem_cons, ih]
      tauto

theorem mem_sortEntries (x : Entry) (l : List Entry) :
    x ∈ sortEntries l ↔ x ∈ l := by
  induction l with
  | nil => simp [sortEntries]
  | cons a rest ih =>
    unfold sortEntries
    rw [mem_insertEntry, ih]
    simp

/-- Claim C2: the score the scoreboard reports for a team equals the
specification's formula — the sum of challenge points over the set of
`(user, challenge)` pairs with the user a current member and at least one
correct submission for the pair (each pair counted once). -/
theorem scoreboard_team_score_spec (db : DB)
    (hch : (db.challenges.map (fun c => c.id)).Nodup) :
    (∀ teamId, teamScore db teamId = specTeamScore db teamId) ∧
    (∀ t ∈ db.teams, ∃ e, e ∈ GetScoreboard db ∧ e.id = t.id ∧
      e.name = t.name ∧ e.score = specTeamScore db t.id) := by
  refine ⟨fun teamId => teamScore_eq_spec db teamId hch, ?_⟩
  intro t ht
  refine ⟨{ id := t.id, name := t.name, score := teamScore db t.id,
            playerCount := teamPlayerCount db t.id }, ?_, rfl, rfl,
          teamScore_eq_spec db t.id hch⟩
  unfold GetScoreboard
  apply List.mem_append_left
  unfold teamEntries
  rw [mem_sortEntries]
  exact List.mem_map.2 ⟨t, ht, rfl⟩

/-- Witness for claim C2: a team of two members who both solved the same
100-point challenge scores 200 (once per member), not 100 and not 400. -/
def teamDb : DB :=
  { users := [⟨1, "alice", "ka", some 1⟩, ⟨2, "bob", "kb", some 1⟩],
    teams := [⟨1, "red", "joincode"⟩],
    challenges := [⟨1, "easy", 100, "ctf{hi}"⟩],
    submissions := [⟨1, 1, "ctf{hi}", true⟩, ⟨2, 1, "ctf{hi}", true⟩,
                    ⟨2, 1, "ctf{hi}", false⟩] }

theorem scoreboard_team_score_spec_witness :
    (teamDb.challenges.map (fun c => c.id)).Nodup ∧
    ((∀ teamId, teamScore teamDb teamId = specTeamScore teamDb teamId) ∧
      (∀ t ∈ teamDb.teams, ∃ e, e ∈ GetScoreboard teamDb ∧ e.id = t.id ∧
        e.name = t.name ∧ e.score = specTeamScore teamDb t.id)) :=
  ⟨by decide, scoreboard_team_score_spec teamDb (by decide)⟩

end ScoreEquivalence

section ScoreboardOrder

theorem entryLe_total (a b : Entry) (h : entryLe a b = false) :
    entryLe b a = true := by
  unfold entryLe at h ⊢
  by_cases hlt : b.score < a.score
  · simp [hlt] at h
  · by_cases hs : a.score = b.score
    · by_cases hnm : a.name ≤ b.name
      · simp [hs, hnm] at h
      · have hba : b.name ≤ a.name := le_of_not_le hnm
        simp [hs.symm, hba]
    · have hab : a.score < b.score := lt_of_le_of_ne (le_of_not_lt hlt) hs
      simp [hab]

theorem entriesSorted_cons_cons (a b : Entry) (l : List Entry) :
    entriesSorted (a :: b :: l) = (entryLe a b && entriesSorted (b :: l)) := rfl

theorem entriesSorted_insertEntry (a : Entry) (l : List Entry)
    (h : entriesSorted l = true) : entriesSorted (insertEntry a l) = true := by
  induction l with
  | nil => rfl
  | cons b rest ih =>
    unfold insertEntry
    by_cases hab : entryLe a b
    · rw [if_pos hab]
      rw [entriesSorted_cons_cons, hab, Bool.true_and]
      exact h
    · rw [if_neg hab]
      have hab2 : entryLe a b = false := by simpa using hab
      have hba : entryLe b a = true := entryLe_total a b hab2
      cases rest with
      | nil =>
        show entriesSorted (b :: [a]) = true
        rw [entriesSorted_cons_cons, hba]
        rfl
      | cons c rest2 =>
        rw [entriesSorted_cons_cons, Bool.and_eq_true] at h
        rcases h with ⟨hbc, hrest⟩
        have hins := ih hrest
        unfold insertEntry at hins ⊢
        by_cases hac : entryLe a c
        · rw [if_pos hac] at hins ⊢
          rw [entriesSorted_cons_cons, hba, Bool.true_and]
          exact hins
        · rw [if_neg hac] at hins ⊢
          rw [entriesSorted_cons_cons, hbc, Bool.true_and]
          exact hins

theorem sortEntries_sorted (l : List Entry) :
    entriesSorted (sortEntries l) = true := by
  induction l with
  | nil => rfl
  | cons a rest ih =>
    unfold sortEntries
    exact entriesSorted_insertEntry a (sortEntries rest) ih

/-- Claim C3 (amended): `GetScoreboard` returns the team rows followed by the
solo rows; each of the two blocks is ordered by score descending with ties
broken by name ascending, but the ordering does not hold across the block
boundary (a high-scoring solo user is listed after a zero-score team). -/
theorem getScoreboard_blockwise_sorted (db : DB) :
    GetScoreboard db = teamEntries db ++ soloEntries db ∧
    entriesSorted (teamEntries db) = true ∧
    entriesSorted (soloEntries db) = true :=
  ⟨rfl, sortEntries_sorted _, sortEntries_sorted _⟩

/-- A database where the only team has score 0 while a solo user has 100
points: the concatenated scoreboard is not sorted across the boundary. -/
def mixedDb : DB :=
  { users := [⟨1, "carol", "kc", some 1⟩, ⟨2, "dave", "kd", none⟩],
    teams := [⟨1, "zeta", "jz"⟩],
    challenges := [⟨1, "easy", 100, "ctf{hi}"⟩],
    submissions := [⟨2, 1, "ctf{hi}", true⟩] }

/-- Counterexample to claim C3 as stated: the full returned list is not
ordered by score descending — the zero-score team `zeta` precedes the
100-point solo user `dave`. -/
theorem getScoreboard_not_globally_sorted :
    entriesSorted (GetScoreboard mixedDb) = false ∧
    GetScoreboard mixedDb =
      [⟨1, "zeta", 0, 1⟩, ⟨-2, "dave", 100, 1⟩] := by
  constructor
  · decide
  · decide

end ScoreboardOrder

/-! ## Team membership and deletion (`internal/db/team.go` and the team UI)

`db.LeaveTeam` only clears the user's `team_id`; `db.DeleteTeam` deletes the
team row.  The leave flow of the UI (`teamModel.handleTeamMemberAction`
case 0 and `updateConfirmDeleteTeamView`) glues them together: when
`CountTeamMembers` returns 1 the UI switches to the confirm-delete view and,
on `y`, runs `LeaveTeam` then `DeleteTeam`; with more than one member it
runs `LeaveTeam` alone. -/

/-- `db.CountTeamMembers`: `SELECT COUNT(*) FROM users WHERE team_id = ?`. -/
def CountTeamMembers (db : DB) (teamId : Int) : Nat :=
  (teamMembers db teamId).length

/-- `db.LeaveTeam`: `UPDATE users SET team_id = NULL WHERE id = ?`. -/
def LeaveTeam (db : DB) (userId : Int) : DB :=
  { db with users := db.users.map (fun u =>
      if u.id == userId then { u with teamId := none } else u) }

/-- `db.DeleteTeam`: `DELETE FROM teams WHERE id = ?`. -/
def DeleteTeam (db : DB) (teamId : Int) : DB :=
  { db with teams := db.teams.filter (fun t => !(t.id == teamId)) }

/-- Does a team row with this id exist? -/
def teamExists (db : DB) (teamId : Int) : Bool :=
  db.teams.any (fun t => t.id == teamId)

/-- The UI's leave-team flow for a member of team `teamId`:
`handleTeamMemberAction` counts the members; with exactly one member it
raises `confirmDeleteTeamMsg`, and `updateConfirmDeleteTeamView` on `y`
(`confirmYes`) runs `LeaveTeam` then `DeleteTeam`, while any other key
leaves the database untouched; with more than one member it runs
`LeaveTeam` directly. -/
def leaveTeamFlow (db : DB) (userId teamId : Int) (confirmYes : Bool) : DB :=
  if CountTeamMembers db teamId = 1 then
    if confirmYes then DeleteTeam (LeaveTeam db userId) teamId else db
  else LeaveTeam db userId

section TeamLemmas

theorem LeaveTeam_teams (db : DB) (userId : Int) :
    (LeaveTeam db userId).teams = db.teams := rfl

theorem teamExists_LeaveTeam (db : DB) (userId teamId : Int) :
    teamExists (LeaveTeam db userId) teamId = teamExists db teamId := rfl

theorem teamExists_DeleteTeam_self (db : DB) (teamId : Int) :
    teamExists (DeleteTeam db teamId) teamId = false := by
  unfold teamExists DeleteTeam
  simp only [List.any_eq_true, List.mem_filter]
  simp

theorem teamExists_DeleteTeam_other (db : DB) (teamId other : Int)
    (h : other ≠ teamId) :
    teamExists (DeleteTeam db teamId) other = teamExists db other := by
  unfold teamExists DeleteTeam
  apply bool_eq_of_iff
  simp only [List.any_eq_true, List.mem_filter, beq_iff_eq]
  constructor
  · rintro ⟨t, ⟨ht, _⟩, hid⟩
    exact ⟨t, ht, hid⟩
  · rintro ⟨t, ht, hid⟩
    refine ⟨t, ⟨ht, ?_⟩, hid⟩
    simp [hid, h]

end TeamLemmas

/-- Claim C9: a team is deleted exactly when its last member leaves.  If the
team has exactly one member, completing the leave flow (confirming the
deletion prompt) removes the team from the store; and a team that still
exists before the flow disappears only if it was that team, it had exactly
one member, and the deletion was confirmed — a team with several remaining
members is never deleted. -/
theorem leaveTeamFlow_deletes_iff_last_member (db : DB) (userId teamId : Int) :
    (CountTeamMembers db teamId = 1 →
      teamExists (leaveTeamFlow db userId teamId true) teamId = false) ∧
    (∀ other confirmYes, teamExists db other = true →
      teamExists (leaveTeamFlow db userId teamId confirmYes) other = false →
      other = teamId ∧ CountTeamMembers db teamId = 1 ∧ confirmYes = true) := by
  constructor
  · intro hcount
    unfold leaveTeamFlow
    rw [if_pos hcount, if_pos rfl]
    exact teamExists_DeleteTeam_self _ teamId
  · intro other confirmYes hex hgone
    unfold leaveTeamFlow at hgone
    by_cases hcount : CountTeamMembers db teamId = 1
    · rw [if_pos hcount] at hgone
      cases confirmYes with
      | false =>
        rw [if_neg (by simp)] at hgone
        rw [hex] at hgone
        exact Bool.noConfusion hgone
      | true =>
        rw [if_pos rfl] at hgone
        by_cases hother : other = teamId
        · exact ⟨hother, hcount, rfl⟩
        · rw [teamExists_DeleteTeam_other _ teamId other hother,
            teamExists_LeaveTeam, hex] at hgone
          exact Bool.noConfusion hgone
    · rw [if_neg hcount, teamExists_LeaveTeam, hex] at hgone
      exact Bool.noConfusion hgone

/-- Witness for claim C9: `alice` is the sole member of team `red`; after
the confirmed leave flow the team row is gone. -/
def soloTeamDb : DB :=
  { users := [⟨1, "alice", "ka", some 1⟩],
    teams := [⟨1, "red", "joincode"⟩],
    challenges := [],
    submissions := [] }

theorem leaveTeamFlow_deletes_iff_last_member_witness :
    (CountTeamMembers soloTeamDb 1 = 1 ∧
      teamExists (leaveTeamFlow soloTeamDb 1 1 true) 1 = false) ∧
    (teamExists soloTeamDb 1 = true ∧
      teamExists (leaveTeamFlow soloTeamDb 1 1 false) 1 = true) :=
  ⟨⟨by decide, (leaveTeamFlow_deletes_iff_last_member soloTeamDb 1 1).1 (by decide)⟩,
   ⟨by decide, by decide⟩⟩

/-! ## Registration (`internal/ui/challenges.go` createUser,
`internal/db/user.go` CreateUser, `internal/db/challenge.go` GetChallenges)

`createUser` rejects an empty username, an empty public key, a username
equal to an existing user's username, and a username present as a key of
the `GetChallenges()` map (challenge short-names are a reserved namespace);
otherwise it inserts the user row with the connection's public key.
`GetChallenges` keys its map by the stored challenge name and additionally
by the lowercased-trimmed name (its second normalization loop). -/

/-- Errors returned by the registration path. -/
inductive AuthError
  | emptyUsername
  | emptySshKey
  | usernameTaken
  | createFailed
deriving DecidableEq, Repr

/-- The smallest unused positive user id (SQLite `AUTOINCREMENT` row id). -/
def nextUserId (db : DB) : Int :=
  (db.users.map (fun u => u.id)).foldr max 0 + 1

/-- The key set of the `GetChallenges()` map: each challenge name plus its
lowercased, trimmed normalization. -/
def challengeKeys (db : DB) : List String :=
  db.challenges.map (fun c => c.name) ++
    db.challenges.map (fun c => c.name.trim.toLower)

/-- `db.CreateUser(username, sshKey)`: `INSERT INTO users (username,
ssh_key) VALUES (?, ?)` — fails on a `UNIQUE` violation of either column. -/
def CreateUser (db : DB) (username sshKey : String) :
    Except AuthError User × DB :=
  if db.users.any (fun u => u.username == username || u.sshKey == sshKey) then
    (.error .createFailed, db)
  else
    (.ok ⟨nextUserId db, username, sshKey, none⟩,
     { db with users := db.users ++ [⟨nextUserId db, username, sshKey, none⟩] })

/-- `ui.createUser(username, sshKey)`: validate non-empty username and key,
uniqueness against users, and the challenge short-name namespace, then
insert via `db.CreateUser`. -/
def createUser (db : DB) (username sshKey : String) :
    Except AuthError User × DB :=
  if username == "" then (.error .emptyUsername, db)
  else if sshKey == "" then (.error .emptySshKey, db)
  else if db.users.any (fun u => u.username == username) then
    (.error .usernameTaken, db)
  else if (challengeKeys db).contains username then
    (.error .usernameTaken, db)
  else CreateUser db username sshKey

/-- Claim C5: registration returns an error and creates no user row whenever
the requested username is empty, equals an existing user's username, or
equals an existing challenge short-name; for any other username it creates
the user with the connection's public key.  (The connection's public key of
an authenticated SSH session is non-empty and, on the registration path,
not yet bound to any user.) -/
theorem createUser_spec (db : DB) (username sshKey : String)
    (hkey : sshKey ≠ "")
    (hkeyfree : db.users.all (fun u => !(u.sshKey == sshKey)) = true) :
    ((username = "" ∨ db.users.any (fun u => u.username == username) = true ∨
        (challengeKeys db).contains username = true) →
      ∃ e, createUser db username sshKey = (.error e, db)) ∧
    (username ≠ "" →
      db.users.any (fun u => u.username == username) = false →
      (challengeKeys db).contains username = false →
      createUser db username sshKey =
        (.ok ⟨nextUserId db, username, sshKey, none⟩,
         { db with users := db.users ++ [⟨nextUserId db, username, sshKey, none⟩] })) := by
  constructor
  · intro hbad
    unfold createUser
    rcases hbad with hempty | htaken | hchal
    · refine ⟨.emptyUsername, ?_⟩
      rw [if_pos (by simp [hempty])]
    · by_cases hempty : username = ""
      · exact ⟨.emptyUsername, by rw [if_pos (by simp [hempty])]⟩
      · refine ⟨.usernameTaken, ?_⟩
        rw [if_neg (by simpa using hempty), if_neg (by simpa using hkey),
          if_pos htaken]
    · by_cases hempty : username = ""
      · exact ⟨.emptyUsername, by rw [if_pos (by simp [hempty])]⟩
      · by_cases htaken : db.users.any (fun u => u.username == username) = true
        · refine ⟨.usernameTaken, ?_⟩
          rw [if_neg (by simpa using hempty), if_neg (by simpa using hkey),
            if_pos htaken]
        · refine ⟨.usernameTaken, ?_⟩
          rw [if_neg (by simpa using hempty), if_neg (by simpa using hkey),
            if_neg htaken, if_pos hchal]
  · intro hempty htaken hchal
    unfold createUser
    rw [if_neg (by simpa using hempty), if_neg (by simpa using hkey),
      if_neg (by rw [htaken]; simp), if_neg (by rw [hchal]; simp)]
    unfold CreateUser
    rw [if_neg ?_]
    intro hdup
    rw [List.any_eq_true] at hdup
    obtain ⟨u, hu, hprop⟩ := hdup
    rw [Bool.or_eq_true] at hprop
    rcases hprop with hname | hk
    · have : db.users.any (fun u => u.username == username) = true :=
        List.any_eq_true.2 ⟨u, hu, hname⟩
      rw [htaken] at this
      exact Bool.noConfusion this
    · have := List.all_eq_true.1 hkeyfree u hu
      rw [hk] at this
      exact Bool.noConfusion this

/-- Witness for claim C5: registering `bob` with a fresh key on the sample
database succeeds; registering empty, `alice` (taken) or `easy` (challenge
short-name) fails. -/
theorem createUser_spec_witness :
    (("bob-key" : String) ≠ "" ∧
      sampleDb.users.all (fun u => !(u.sshKey == "bob-key")) = true) ∧
    (("alice" = "" ∨ sampleDb.users.any (fun u => u.username == "alice") = true ∨
        (challengeKeys sampleDb).contains "alice" = true) →
      ∃ e, createUser sampleDb "alice" "bob-key" = (.error e, sampleDb)) ∧
    (("bob" : String) ≠ "" →
      sampleDb.users.any (fun u => u.username == "bob") = false →
      (challengeKeys sampleDb).contains "bob" = false →
      createUser sampleDb "bob" "bob-key" =
        (.ok ⟨nextUserId sampleDb, "bob", "bob-key", none⟩,
         { sampleDb with users :=
             sampleDb.users ++ [⟨nextUserId sampleDb, "bob", "bob-key", none⟩] })) :=
  ⟨⟨by decide, by decide⟩,
   (createUser_spec sampleDb "alice" "bob-key" (by decide) (by decide)).1,
   (createUser_spec sampleDb "bob" "bob-key" (by decide) (by decide)).2⟩

/-! ## Transaction structure (`internal/db/team.go` CreateAndJoinTeam,
`internal/db/submission.go` SubmitFlag)

To settle whether the multi-row sequences run inside a transaction, the two
functions are also embedded as sequences of database statements in a small
statement language.  `CreateAndJoinTeam` wraps its `INSERT INTO teams` and
`UPDATE users SET team_id` in `db.Begin()` … `tx.Commit()` with a deferred
rollback; `SubmitFlag` issues its two `SELECT`s and its `INSERT INTO
submissions` directly on the connection, with no transaction.  The
semantics runs a statement list with a failure oracle: `failAt` names the
index (in execution order) of the first statement that fails; a transaction
whose body fails restores the state from before the transaction. -/

/-- The SQL statements issued by the two verified write paths. -/
inductive SqlStmt
  | selectFlag (challengeId : Int)
  | selectSolved (userId challengeId : Int)
  | insertSubmission (userId challengeId : Int) (flag : String) (correct : Bool)
  | insertTeam (name joinCode : String)
  | updateUserTeamLastInsert (userId : Int)
deriving DecidableEq, Repr

/-- Does the statement mutate the database? -/
def SqlStmt.isWrite : SqlStmt → Bool
  | .selectFlag _ => false
  | .selectSolved _ _ => false
  | _ => true

/-- A step of a database routine: a bare statement on the shared connection,
or a `Begin`/`Commit` transaction containing statements. -/
inductive DbAction
  | stmt (s : SqlStmt)
  | tx (body : List SqlStmt)
deriving DecidableEq, Repr

/-- Is the action a transaction? -/
def DbAction.isTx : DbAction → Bool
  | .tx _ => true
  | .stmt _ => false

/-- Does the action write outside of any transaction? -/
def DbAction.writesOutsideTx : DbAction → Bool
  | .stmt s => s.isWrite
  | .tx _ => false

/-- The largest team id (`LastInsertId` after `INSERT INTO teams` — new rows
get `max + 1`, so the last inserted team row carries the maximum id). -/
def maxTeamId (db : DB) : Int :=
  (db.teams.map (fun t => t.id)).foldr max 0

/-- Effect of one statement on the database state (reads are identities). -/
def applyStmt (db : DB) (s : SqlStmt) : DB :=
  match s with
  | .selectFlag _ => db
  | .selectSolved _ _ => db
  | .insertSubmission u c f correct =>
    { db with submissions := db.submissions ++ [⟨u, c, f, correct⟩] }
  | .insertTeam name joinCode =>
    { db with teams := db.teams ++ [⟨maxTeamId db + 1, name, joinCode⟩] }
  | .updateUserTeamLastInsert u =>
    { db with users := db.users.map (fun x =>
        if x.id == u then { x with teamId := some (maxTeamId db) } else x) }

/-- Run a statement list; the statement at (execution-order) index `failAt`
fails before taking effect.  Returns success, the state, and the remaining
failure budget. -/
def runStmts : DB → List SqlStmt → Nat → Bool × DB × Nat
  | db, [], k => (true, db, k)
  | db, _ :: _, 0 => (false, db, 0)
  | db, s :: rest, k + 1 => runStmts (applyStmt db s) rest k

/-- Run an action list with the failure oracle.  A failed transaction body
rolls the state back to the transaction start and aborts the routine, as
the deferred `tx.Rollback()` does. -/
def runActions : DB → List DbAction → Nat → Bool × DB × Nat
  | db, [], k => (true, db, k)
  | db, .stmt _ :: _, 0 => (false, db, 0)
  | db, .stmt s :: rest, k + 1 => runActions (applyStmt db s) rest k
  | db, .tx body :: rest, k =>
    match runStmts db body k with
    | (true, db2, k2) => runActions db2 rest k2
    | (false, _, k2) => (false, db, k2)

/-- `db.CreateAndJoinTeam(creatorID, teamName)` as a statement sequence:
one transaction containing the team insert and the creator's membership
update. -/
def createAndJoinTeamProg (creatorId : Int) (teamName joinCode : String) :
    List DbAction :=
  [.tx [.insertTeam teamName joinCode, .updateUserTeamLastInsert creatorId]]

/-- `db.SubmitFlag(userID, challengeID, flag)` as a statement sequence (the
path that reaches the insert): the flag `SELECT`, the already-solved
`SELECT`, and the submission `INSERT`, all issued directly on the shared
connection — no `db.Begin()` anywhere in the function. -/
def submitFlagProg (userId challengeId : Int) (flag : String) (correct : Bool) :
    List DbAction :=
  [.stmt (.selectFlag challengeId),
   .stmt (.selectSolved userId challengeId),
   .stmt (.insertSubmission userId challengeId flag correct)]

/-- Counterexample to claim C4 as stated: the already-solved check followed
by the submission insert does not execute inside a transaction — the
`SubmitFlag` statement sequence contains no transaction at all, and its
insert is a bare write on the shared connection. -/
theorem submitFlag_not_transactional :
    (submitFlagProg 1 1 "ctf{hi}" true).any DbAction.isTx = false ∧
    (submitFlagProg 1 1 "ctf{hi}" true).any DbAction.writesOutsideTx = true := by
  constructor
  · rfl
  · rfl

/-- Claim C4 (amended): team creation plus the creator's membership update
runs inside a single transaction, so any failure during the sequence leaves
the database unchanged; the already-solved check and the submission insert
run as bare statements outside any transaction — yet a failure there also
leaves the database unchanged, because the two leading statements are reads
and the single insert either fully executes or fails without effect. -/
theorem mutating_sequences_failure_atomicity (db : DB) (failAt : Nat)
    (creatorId userId challengeId : Int) (teamName joinCode flag : String)
    (correct : Bool) :
    ((createAndJoinTeamProg creatorId teamName joinCode).any DbAction.isTx = true) ∧
    ((runActions db (createAndJoinTeamProg creatorId teamName joinCode) failAt).1 = false →
      (runActions db (createAndJoinTeamProg creatorId teamName joinCode) failAt).2.1 = db) ∧
    ((submitFlagProg userId challengeId flag correct).any DbAction.isTx = false) ∧
    ((runActions db (submitFlagProg userId challengeId flag correct) failAt).1 = false →
      (runActions db (submitFlagProg userId challengeId flag correct) failAt).2.1 = db) := by
  refine ⟨rfl, ?_, rfl, ?_⟩
  · intro hfail
    match failAt with
    | 0 => rfl
    | 1 => rfl
    | (n + 2) =>
      exfalso
      simp [createAndJoinTeamProg, runActions, runStmts] at hfail
  · intro hfail
    match failAt with
    | 0 => rfl
    | 1 => simp [submitFlagProg, runActions, applyStmt]
    | 2 => simp [submitFlagProg, runActions, applyStmt]
    | (n + 3) =>
      exfalso
      simp [submitFlagProg, runActions, applyStmt] at hfail

/-- Witness for claim C4 (amended) at a concrete database and failure
point: failing the membership update rolls the team insert back. -/
theorem mutating_sequences_failure_atomicity_witness :
    ((createAndJoinTeamProg 1 "red" "joincode").any DbAction.isTx = true) ∧
    ((runActions sampleDb (createAndJoinTeamProg 1 "red" "joincode") 1).1 = false ∧
      (runActions sampleDb (createAndJoinTeamProg 1 "red" "joincode") 1).2.1 = sampleDb) ∧
    ((submitFlagProg 1 1 "ctf{hi}" true).any DbAction.isTx = false) ∧
    ((runActions sampleDb (submitFlagProg 1 1 "ctf{hi}" true) 2).1 = false ∧
      (runActions sampleDb (submitFlagProg 1 1 "ctf{hi}" true) 2).2.1 = sampleDb) :=
  ⟨(mutating_sequences_failure_atomicity sampleDb 1 1 1 1 "red" "joincode" "ctf{hi}" true).1,
   ⟨by decide,
    (mutating_sequences_failure_atomicity sampleDb 1 1 1 1 "red" "joincode" "ctf{hi}" true).2.1
      (by decide)⟩,
   (mutating_sequences_failure_atomicity sampleDb 1 1 1 1 "red" "joincode" "ctf{hi}" true).2.2.1,
   ⟨by decide,
    (mutating_sequences_failure_atomicity sampleDb 2 1 1 1 "red" "joincode" "ctf{hi}" true).2.2.2
      (by decide)⟩⟩

/-! ## SFTP path resolution (`internal/download/download.go`)

The SFTP subsystem (`SftpSubsystem`) serves every request through
`sftp.NewRequestServer`.  The request server normalizes each
client-supplied path before the handler sees it: the path is made absolute
against `/` and lexically cleaned, so `r.Filepath` is always an absolute,
`..`-free path.  `sftpHandler.Fileread` then opens
`filepath.Join(s.root, r.Filepath)`; `Filelist` reads or stats the same
joined path.  Both stages use the same lexical cleaning algorithm
(`path.Clean` / `filepath.Clean` on Unix), embedded below over character
lists. -/

/-- Split a path into its non-empty `/`-separated components. -/
def splitComps : List Char → List Char → List (List Char)
  | [], cur => if cur.isEmpty then [] else [cur.reverse]
  | c :: rest, cur =>
    if c = '/' then
      if cur.isEmpty then splitComps rest [] else cur.reverse :: splitComps rest []
    else splitComps rest (c :: cur)

/-- Process components against an output stack, resolving `.` and `..` the
way `filepath.Clean` does: `..` pops a non-`..` stack entry, is dropped at
the root of an absolute path, and is kept at the start of a relative path. -/
def resolveComps (absRoot : Bool) : List (List Char) → List (List Char) →
    List (List Char)
  | acc, [] => acc.reverse
  | acc, comp :: rest =>
    if comp = ['.'] then resolveComps absRoot acc rest
    else if comp = ['.', '.'] then
      match acc with
      | [] =>
        if absRoot then resolveComps absRoot [] rest
        else resolveComps absRoot [['.', '.']] rest
      | top :: lower =>
        if top = ['.', '.'] then resolveComps absRoot (comp :: acc) rest
        else resolveComps absRoot lower rest
    else resolveComps absRoot (comp :: acc) rest

/-- Go `path/filepath.Clean` for Unix paths. -/
def goClean (s : String) : String :=
  let cs := s.toList
  let absRoot := decide (cs.head? = some '/')
  let comps := resolveComps absRoot [] (splitComps cs [])
  if absRoot then String.mk ('/' :: (List.intercalate ['/'] comps))
  else if comps.isEmpty then "." else String.mk (List.intercalate ['/'] comps)

/-- Go `path/filepath.Join` of two parts: empty parts are skipped, the rest
joined with `/` and cleaned. -/
def goJoin (a b : String) : String :=
  if a = "" then
    if b = "" then "" else goClean b
  else if b = "" then goClean a
  else goClean (a ++ "/" ++ b)

/-- The path the SFTP handler passes to `os.Open` / `os.ReadDir` /
`os.Stat` for a request carrying `r.Filepath`:
`filepath.Join(s.root, r.Filepath)`. -/
def sftpResolve (root reqPath : String) : String := goJoin root reqPath

/-- The request server's path normalization (the `cleanPath` step of the
sftp request server wired in `SftpSubsystem`): the client path is made
absolute against `/` and lexically cleaned, producing the `r.Filepath` the
handler receives. -/
def sftpRequestPath (clientPath : String) : String :=
  goClean ("/" ++ clientPath)

/-- The path the SFTP subsystem opens, lists or stats for a client request:
the handler's join of the staging root with the normalized request path. -/
def sftpOpenedPath (root clientPath : String) : String :=
  sftpResolve root (sftpRequestPath clientPath)

/-- Is `p` the root itself or strictly inside the directory `root`? -/
def underRoot (root p : String) : Bool :=
  p == root || (root ++ "/").toList.isPrefixOf p.toList

section SftpPathLemmas

theorem splitComps_cons (c : Char) (rest cur : List Char) :
    splitComps (c :: rest) cur =
      if c = '/' then
        if cur.isEmpty then splitComps rest []
        else cur.reverse :: splitComps rest []
      else splitComps rest (c :: cur) := rfl

theorem splitComps_append_slash (xs : List Char) :
    ∀ (cur ys : List Char),
      splitComps (xs ++ '/' :: ys) cur = splitComps xs cur ++ splitComps ys [] := by
  induction xs with
  | nil =>
    intro cur ys
    rw [List.nil_append, splitComps_cons, if_pos rfl]
    by_cases hcur : cur.isEmpty
    · rw [if_pos hcur]
      have : splitComps [] cur = [] := by
        unfold splitComps
        rw [if_pos hcur]
      rw [this, List.nil_append]
    · rw [if_neg hcur]
      have : splitComps [] cur = [cur.reverse] := by
        unfold splitComps
        rw [if_neg hcur]
      rw [this, List.cons_append, List.nil_append]
  | cons c xs ih =>
    intro cur ys
    rw [List.cons_append, splitComps_cons, splitComps_cons]
    by_cases hc : c = '/'
    · rw [if_pos hc, if_pos hc]
      by_cases hcur : cur.isEmpty
      · rw [if_pos hcur, if_pos hcur, ih]
      · rw [if_neg hcur, if_neg hcur, ih, List.cons_append]
    · rw [if_neg hc, if_neg hc, ih]

theorem splitComps_no_slash (xs : List Char) :
    ∀ cur, '/' ∉ xs → splitComps xs cur = splitComps [] (xs.reverse ++ cur) := by
  induction xs with
  | nil => intro cur _; rfl
  | cons c xs ih =>
    intro cur hns
    have hc : c ≠ '/' := fun h => hns (h ▸ List.mem_cons_self c xs)
    have hxs : '/' ∉ xs := fun h => hns (List.mem_cons_of_mem c h)
    rw [splitComps_cons, if_neg (fun h => hc (by rw [h]))]
    rw [ih (c :: cur) hxs]
    have : xs.reverse ++ c :: cur = (c :: xs).reverse ++ cur := by
      simp
    rw [this]

theorem splitComps_single (x : List Char) (hne : x ≠ []) (hns : '/' ∉ x) :
    splitComps x [] = [x] := by
  rw [splitComps_no_slash x [] hns]
  have hrev : x.reverse ++ [] = x.reverse := List.append_nil _
  rw [hrev]
  have hrevne : ¬(x.reverse.isEmpty = true) := by
    rw [List.isEmpty_iff]
    intro h
    exact hne (by simpa using congrArg List.reverse h)
  unfold splitComps
  rw [if_neg hrevne, List.reverse_reverse]

theorem mem_splitComps_wf (xs : List Char) :
    ∀ cur c, '/' ∉ cur → c ∈ splitComps xs cur → c ≠ [] ∧ '/' ∉ c := by
  induction xs with
  | nil =>
    intro cur c hcur hmem
    unfold splitComps at hmem
    by_cases hc : cur.isEmpty
    · rw [if_pos hc] at hmem
      exact absurd hmem (List.not_mem_nil c)
    · rw [if_neg hc] at hmem
      rcases List.mem_singleton.1 hmem with rfl
      constructor
      · intro h
        apply hc
        rw [List.isEmpty_iff]
        simpa using congrArg List.reverse h
      · intro h
        exact hcur (List.mem_reverse.1 h)
  | cons x xs ih =>
    intro cur c hcur hmem
    rw [splitComps_cons] at hmem
    by_cases hx : x = '/'
    · rw [if_pos hx] at hmem
      by_cases hc : cur.isEmpty
      · rw [if_pos hc] at hmem
        exact ih [] c (List.not_mem_nil '/') hmem
      · rw [if_neg hc] at hmem
        rcases List.mem_cons.1 hmem with rfl | hmem
        · constructor
          · intro h
            apply hc
            rw [List.isEmpty_iff]
            simpa using congrArg List.reverse h
          · intro h
            exact hcur (List.mem_reverse.1 h)
        · exact ih [] c (List.not_mem_nil '/') hmem
    · rw [if_neg hx] at hmem
      have : '/' ∉ x :: cur := by
        intro h
        rcases List.mem_cons.1 h with h | h
        · exact hx h.symm
        · exact hcur h
      exact ih (x :: cur) c this hmem

theorem resolveComps_cons (absRoot : Bool) (acc : List (List Char))
    (comp : List Char) (rest : List (List Char)) :
    resolveComps absRoot acc (comp :: rest) =
      if comp = ['.'] then resolveComps absRoot acc rest
      else if comp = ['.', '.'] then
        match acc with
        | [] =>
          if absRoot then resolveComps absRoot [] rest
          else resolveComps absRoot [['.', '.']] rest
        | top :: lower =>
          if top = ['.', '.'] then resolveComps absRoot (comp :: acc) rest
          else resolveComps absRoot lower rest
      else resolveComps absRoot (comp :: acc) rest := rfl

theorem resolveComps_dot (absRoot : Bool) (acc rest : List (List Char)) :
    resolveComps absRoot acc (['.'] :: rest) =
      resolveComps absRoot acc rest := rfl

theorem resolveComps_dotdot_nil (absRoot : Bool) (rest : List (List Char)) :
    resolveComps absRoot [] (['.', '.'] :: rest) =
      if absRoot then resolveComps absRoot [] rest
      else resolveComps absRoot [['.', '.']] rest := rfl

theorem resolveComps_dotdot_cons (absRoot : Bool) (top : List Char)
    (lower rest : List (List Char)) :
    resolveComps absRoot (top :: lower) (['.', '.'] :: rest) =
      if top = ['.', '.'] then
        resolveComps absRoot (['.', '.'] :: top :: lower) rest
      else resolveComps absRoot lower rest := rfl

theorem mem_resolveComps_subset (absRoot : Bool) (comps : List (List Char)) :
    ∀ acc c, c ∈ resolveComps absRoot acc comps →
      c ∈ acc ∨ c ∈ comps ∨ c = ['.', '.'] := by
  induction comps with
  | nil =>
    intro acc c hmem
    unfold resolveComps at hmem
    exact Or.inl (List.mem_reverse.1 hmem)
  | cons comp rest ih =>
    intro acc c hmem
    by_cases h1 : comp = ['.']
    · subst h1
      rw [resolveComps_dot] at hmem
      rcases ih acc c hmem with h | h | h
      · exact Or.inl h
      · exact Or.inr (Or.inl (List.mem_cons_of_mem _ h))
      · exact Or.inr (Or.inr h)
    · by_cases h2 : comp = ['.', '.']
      · subst h2
        cases acc with
        | nil =>
          rw [resolveComps_dotdot_nil] at hmem
          cases absRoot with
          | true =>
            rw [if_pos rfl] at hmem
            rcases ih [] c hmem with h | h | h
            · exact absurd h (List.not_mem_nil c)
            · exact Or.inr (Or.inl (List.mem_cons_of_mem _ h))
            · exact Or.inr (Or.inr h)
          | false =>
            rw [if_neg (by simp)] at hmem
            rcases ih [['.', '.']] c hmem with h | h | h
            · exact Or.inr (Or.inr (List.mem_singleton.1 h))
            · exact Or.inr (Or.inl (List.mem_cons_of_mem _ h))
            · exact Or.inr (Or.inr h)
        | cons top lower =>
          rw [resolveComps_dotdot_cons] at hmem
          by_cases h3 : top = ['.', '.']
          · rw [if_pos h3] at hmem
            rcases ih (['.', '.'] :: top :: lower) c hmem with h | h | h
            · rcases List.mem_cons.1 h with rfl | h
              · exact Or.inr (Or.inr rfl)
              · exact Or.inl h
            · exact Or.inr (Or.inl (List.mem_cons_of_mem _ h))
            · exact Or.inr (Or.inr h)
          · rw [if_neg h3] at hmem
            rcases ih lower c hmem with h | h | h
            · exact Or.inl (List.mem_cons_of_mem top h)
            · exact Or.inr (Or.inl (List.mem_cons_of_mem _ h))
            · exact Or.inr (Or.inr h)
      · rw [resolveComps_cons, if_neg h1, if_neg h2] at hmem
        rcases ih (comp :: acc) c hmem with h | h | h
        · rcases List.mem_cons.1 h with rfl | h
          · exact Or.inr (Or.inl (List.mem_cons_self _ _))
          · exact Or.inl h
        · exact Or.inr (Or.inl (List.mem_cons_of_mem _ h))
        · exact Or.inr (Or.inr h)

theorem resolveComps_abs_no_dots (comps : List (List Char)) :
    ∀ acc, (∀ a ∈ acc, a ≠ ['.'] ∧ a ≠ ['.', '.']) →
      ∀ c ∈ resolveComps true acc comps, c ≠ ['.'] ∧ c ≠ ['.', '.'] := by
  induction comps with
  | nil =>
    intro acc hacc c hmem
    unfold resolveComps at hmem
    exact hacc c (List.mem_reverse.1 hmem)
  | cons comp rest ih =>
    intro acc hacc c hmem
    by_cases h1 : comp = ['.']
    · subst h1
      rw [resolveComps_dot] at hmem
      exact ih acc hacc c hmem
    · by_cases h2 : comp = ['.', '.']
      · subst h2
        cases acc with
        | nil =>
          rw [resolveComps_dotdot_nil, if_pos rfl] at hmem
          exact ih [] (fun a ha => absurd ha (List.not_mem_nil a)) c hmem
        | cons top lower =>
          have htop : top ≠ ['.', '.'] := (hacc top (List.mem_cons_self top lower)).2
          rw [resolveComps_dotdot_cons, if_neg htop] at hmem
          exact ih lower
            (fun a ha => hacc a (List.mem_cons_of_mem top ha)) c hmem
      · rw [resolveComps_cons, if_neg h1, if_neg h2] at hmem
        refine ih (comp :: acc) ?_ c hmem
        intro a ha
        rcases List.mem_cons.1 ha with rfl | ha
        · exact ⟨h1, h2⟩
        · exact hacc a ha

theorem resolveComps_id_of_no_dots (absRoot : Bool) (comps : List (List Char)) :
    ∀ acc, (∀ c ∈ comps, c ≠ ['.'] ∧ c ≠ ['.', '.']) →
      resolveComps absRoot acc comps = acc.reverse ++ comps := by
  induction comps with
  | nil =>
    intro acc _
    unfold resolveComps
    rw [List.append_nil]
  | cons comp rest ih =>
    intro acc hnd
    have h1 : comp ≠ ['.'] := (hnd comp (List.mem_cons_self comp rest)).1
    have h2 : comp ≠ ['.', '.'] := (hnd comp (List.mem_cons_self comp rest)).2
    rw [resolveComps_cons, if_neg h1, if_neg h2,
      ih (comp :: acc) (fun c hc => hnd c (List.mem_cons_of_mem comp hc))]
    simp

theorem intercalate_cons₂ (x : List Char) (L : List (List Char)) (hL : L ≠ []) :
    List.intercalate ['/'] (x :: L) = x ++ '/' :: List.intercalate ['/'] L := by
  cases L with
  | nil => exact absurd rfl hL
  | cons y ys =>
    unfold List.intercalate
    rw [List.intersperse_cons₂, List.flatten_cons, List.flatten_cons]
    rfl

theorem intercalate_append₂ (R C : List (List Char)) (hR : R ≠ []) (hC : C ≠ []) :
    List.intercalate ['/'] (R ++ C) =
      List.intercalate ['/'] R ++ '/' :: List.intercalate ['/'] C := by
  induction R with
  | nil => exact absurd rfl hR
  | cons x R ihR =>
    cases R with
    | nil =>
      rw [List.cons_append, List.nil_append, intercalate_cons₂ x C hC]
      have : List.intercalate ['/'] [x] = x := by
        unfold List.intercalate
        simp
      rw [this]
    | cons r R2 =>
      have hR2 : r :: R2 ≠ [] := by simp
      have happ : (r :: R2) ++ C ≠ [] := by simp
      rw [List.cons_append, intercalate_cons₂ x ((r :: R2) ++ C) happ,
        ihR hR2, intercalate_cons₂ x (r :: R2) hR2]
      simp

theorem splitComps_intercalate (L : List (List Char))
    (hwf : ∀ c ∈ L, c ≠ [] ∧ '/' ∉ c) :
    splitComps (List.intercalate ['/'] L) [] = L := by
  induction L with
  | nil => rfl
  | cons x L ih =>
    have hx := hwf x (List.mem_cons_self x L)
    cases L with
    | nil =>
      have hone : List.intercalate ['/'] [x] = x := by
        unfold List.intercalate
        simp
      rw [hone]
      exact splitComps_single x hx.1 hx.2
    | cons y ys =>
      rw [intercalate_cons₂ x (y :: ys) (by simp),
        splitComps_append_slash x [] (List.intercalate ['/'] (y :: ys)),
        splitComps_single x hx.1 hx.2,
        ih (fun c hc => hwf c (List.mem_cons_of_mem x hc))]
      rfl

theorem splitComps_lead_slash (cs : List Char) :
    splitComps ('/' :: cs) [] = splitComps cs [] := by
  rw [splitComps_cons]
  simp

/-- Normal form of `goClean` on an absolute path. -/
theorem goClean_mk_abs (cs : List Char) (hhead : cs.head? = some '/') :
    goClean (String.mk cs) = String.mk ('/' :: List.intercalate ['/']
      (resolveComps true [] (splitComps cs []))) := by
  unfold goClean
  simp only [String.toList]
  simp only [hhead]
  simp

/-- Normal form of the request-server normalization: the request path the
handler receives is always absolute and built from `.`- and `..`-free,
non-empty, slash-free components. -/
theorem sftpRequestPath_eq (p : String) :
    sftpRequestPath p = String.mk ('/' :: List.intercalate ['/']
      (resolveComps true [] (splitComps p.data []))) := by
  unfold sftpRequestPath
  rw [show ("/" ++ p) = String.mk ('/' :: p.data) from rfl,
    goClean_mk_abs ('/' :: p.data) rfl, splitComps_lead_slash]

/-- Claim C6: for every client-supplied path, the path the SFTP subsystem
opens, lists or stats stays at or under the staging root — the request
server normalizes the client path to a cleaned absolute form before the
handler joins it onto the root, so no `..` component survives to escape and
no file outside the staging root is ever opened or listed (an escaping
resolution, which could only fail, therefore never occurs).  The root is
any canonical absolute directory (non-empty, built from non-empty,
slash-free components that are neither `.` nor `..`), as the configured
staging root is. -/
theorem sftp_no_escape (R : List (List Char)) (hR : R ≠ [])
    (hwfR : ∀ c ∈ R, c ≠ [] ∧ '/' ∉ c ∧ c ≠ ['.'] ∧ c ≠ ['.', '.'])
    (clientPath : String) :
    underRoot (String.mk ('/' :: List.intercalate ['/'] R))
      (sftpOpenedPath (String.mk ('/' :: List.intercalate ['/'] R))
        clientPath) = true := by
  have hCwf : ∀ c ∈ resolveComps true [] (splitComps clientPath.data []),
      c ≠ [] ∧ '/' ∉ c := by
    intro c hc
    rcases mem_resolveComps_subset true _ [] c hc with h | h | h
    · exact absurd h (List.not_mem_nil c)
    · exact mem_splitComps_wf clientPath.data [] c (List.not_mem_nil '/') h
    · subst h
      exact ⟨by simp, by decide⟩
  have hCnd : ∀ c ∈ resolveComps true [] (splitComps clientPath.data []),
      c ≠ ['.'] ∧ c ≠ ['.', '.'] :=
    resolveComps_abs_no_dots _ [] (fun a ha => absurd ha (List.not_mem_nil a))
  have hrootne : String.mk ('/' :: List.intercalate ['/'] R) ≠ "" := by
    intro hcon
    exact List.noConfusion (congrArg String.data hcon)
  have hrpne : sftpRequestPath clientPath ≠ "" := by
    rw [sftpRequestPath_eq]
    intro hcon
    exact List.noConfusion (congrArg String.data hcon)
  have hopen : sftpOpenedPath (String.mk ('/' :: List.intercalate ['/'] R))
      clientPath =
      goClean (String.mk ((('/' :: List.intercalate ['/'] R) ++ ['/']) ++
        ('/' :: List.intercalate ['/']
          (resolveComps true [] (splitComps clientPath.data []))))) := by
    unfold sftpOpenedPath sftpResolve goJoin
    rw [if_neg hrootne, if_neg hrpne, sftpRequestPath_eq]
    rfl
  rw [hopen]
  rw [goClean_mk_abs _ (by rw [List.cons_append]; rfl)]
  have hsplit : splitComps ((('/' :: List.intercalate ['/'] R) ++ ['/']) ++
      ('/' :: List.intercalate ['/']
        (resolveComps true [] (splitComps clientPath.data [])))) [] =
      R ++ resolveComps true [] (splitComps clientPath.data []) := by
    rw [show ((('/' :: List.intercalate ['/'] R) ++ ['/']) ++
        ('/' :: List.intercalate ['/']
          (resolveComps true [] (splitComps clientPath.data [])))) =
        '/' :: (List.intercalate ['/'] R ++ '/' ::
          ('/' :: List.intercalate ['/']
            (resolveComps true [] (splitComps clientPath.data [])))) by simp]
    rw [splitComps_lead_slash,
      splitComps_append_slash (List.intercalate ['/'] R) [],
      splitComps_intercalate R (fun c hc => ⟨(hwfR c hc).1, (hwfR c hc).2.1⟩),
      splitComps_lead_slash,
      splitComps_intercalate _ hCwf]
  rw [hsplit]
  rw [resolveComps_id_of_no_dots true _ [] ?hnd]
  case hnd =>
    intro c hc
    rcases List.mem_append.1 hc with h | h
    · exact ⟨(hwfR c h).2.2.1, (hwfR c h).2.2.2⟩
    · exact hCnd c h
  rw [List.reverse_nil, List.nil_append]
  by_cases hC : resolveComps true [] (splitComps clientPath.data []) = []
  · rw [hC, List.append_nil]
    unfold underRoot
    simp
  · unfold underRoot
    apply Bool.or_eq_true_iff.2
    right
    rw [intercalate_append₂ R _ hR hC]
    rw [show (String.mk ('/' :: List.intercalate ['/'] R) ++ "/").toList =
        ('/' :: List.intercalate ['/'] R) ++ ['/'] from rfl]
    rw [show (String.mk ('/' :: (List.intercalate ['/'] R ++ '/' ::
        List.intercalate ['/']
          (resolveComps true [] (splitComps clientPath.data []))))).toList =
        (('/' :: List.intercalate ['/'] R) ++ ['/']) ++
          List.intercalate ['/']
            (resolveComps true [] (splitComps clientPath.data []))
        by simp]
    rw [List.isPrefixOf_iff_prefix]
    exact List.prefix_append _ _

/-- Witness for claim C6: with the staging root `/stage`, the traversal
attempt `../etc/passwd` is normalized to `/etc/passwd` by the request
server and the handler opens `/stage/etc/passwd` — inside the root. -/
theorem sftp_no_escape_witness :
    (([['s', 't', 'a', 'g', 'e']] : List (List Char)) ≠ [] ∧
      (∀ c ∈ ([['s', 't', 'a', 'g', 'e']] : List (List Char)),
        c ≠ [] ∧ '/' ∉ c ∧ c ≠ ['.'] ∧ c ≠ ['.', '.'])) ∧
    underRoot (String.mk ('/' :: List.intercalate ['/']
        [['s', 't', 'a', 'g', 'e']]))
      (sftpOpenedPath (String.mk ('/' :: List.intercalate ['/']
        [['s', 't', 'a', 'g', 'e']])) "../etc/passwd") = true ∧
    String.mk ('/' :: List.intercalate ['/'] [['s', 't', 'a', 'g', 'e']]) =
      "/stage" ∧
    sftpOpenedPath "/stage" "../etc/passwd" = "/stage/etc/passwd" :=
  ⟨⟨by decide, by decide⟩,
   sftp_no_escape [['s', 't', 'a', 'g', 'e']] (by decide) (by decide)
     "../etc/passwd",
   by decide, by decide⟩

end SftpPathLemmas

/-! ## Instance readiness versus tunnel dialing
(`HandleInstanceRequest` and `DirectTCPChannelHandler`)

Within one SSH connection two tasks interact through shared state:

* the instance handler (`HandleInstanceRequest`) stores the sandbox name in
  the connection context (`s.Context().SetValue("containerName", ...)`),
  then launches `StartChallenge` asynchronously; the goroutine closes
  `readyChan` when startup completes, and the spinner loop waits on it;
* the tunnel handler (`DirectTCPChannelHandler`) reads `containerName` from
  the context and, if present, dials the sandbox.  `readyChan` is local to
  `HandleInstanceRequest`; the tunnel handler holds no reference to it and
  performs no wait before `net.Dial`.

The two tasks are embedded as event sequences and a connection trace is any
interleaving consistent with the code: the tunnel handler dials only when
the context read found the name (i.e. happened after the store). -/

/-- Observable synchronization events of the two tasks. -/
inductive Ev
  | setCtx   -- instance handler stores the sandbox name in the context
  | ready    -- StartChallenge returns and readyChan is closed
  | readCtx  -- tunnel handler reads the sandbox name from the context
  | dial     -- tunnel handler calls net.Dial towards the sandbox
deriving DecidableEq, Repr

/-- Is the trace an interleaving of the two event sequences (each task's
program order preserved)? -/
def isInterleaving : List Ev → List Ev → List Ev → Bool
  | xs, ys, [] => xs.isEmpty && ys.isEmpty
  | xs, ys, t :: ts =>
    (match xs with
     | x :: xs2 => if x = t then isInterleaving xs2 ys ts else false
     | [] => false) ||
    (match ys with
     | y :: ys2 => if y = t then isInterleaving xs ys2 ts else false
     | [] => false)

/-- Does `a` occur (first) strictly before the first `b` in the trace? -/
def evBefore (a b : Ev) : List Ev → Bool
  | [] => false
  | e :: rest => if e = a then rest.contains b else
      if e = b then false else evBefore a b rest

/-- Program order of the instance handler: store the name in the context,
then (asynchronously) complete startup and signal readiness. -/
def instanceTask : List Ev := [.setCtx, .ready]

/-- Program order of the tunnel handler when the context read finds a
sandbox name: read the context, then dial.  When the read finds nothing the
handler returns without dialing. -/
def tunnelTaskFound : List Ev := [.readCtx, .dial]

/-- Tunnel handler events when the context read found no name. -/
def tunnelTaskMissing : List Ev := [.readCtx]

/-- Does the code admit this connection trace?  It must interleave the two
tasks' program orders, and the tunnel handler dials exactly when its
context read happened after the store.  No other synchronization exists
between the two tasks — in particular the tunnel handler never waits on
`readyChan`, which is local to `HandleInstanceRequest`. -/
def codeAdmitsTrace (t : List Ev) : Bool :=
  (isInterleaving instanceTask tunnelTaskFound t && evBefore .setCtx .readCtx t) ||
  (isInterleaving instanceTask tunnelTaskMissing t && !(evBefore .setCtx .readCtx t))

/-- Claim C7 evaluated at the failing trace: the code admits the
interleaving `setCtx, readCtx, dial, ready`, in which the tunnel handler
dials the sandbox after the name is stored but before the readiness signal
— the claim says a dial never precedes the readiness signal. -/
theorem tunnel_dials_before_ready :
    codeAdmitsTrace [Ev.setCtx, Ev.readCtx, Ev.dial, Ev.ready] = true ∧
    Ev.dial ∈ [Ev.setCtx, Ev.readCtx, Ev.dial, Ev.ready] ∧
    evBefore .ready .dial [Ev.setCtx, Ev.readCtx, Ev.dial, Ev.ready] = false := by
  refine ⟨?_, ?_, ?_⟩
  · decide
  · decide
  · decide

/-! ## Container IP lookup and the direct-tcpip tunnel handler
(`internal/instance/incus.go` getContainerIp, `DirectTCPChannelHandler`)

`getContainerIp` asks the runtime for the instance state; on error or when
the network map is empty it returns `""`; otherwise it returns the first
address with family `"inet"` whose first two characters are `"10"`, and
`""` when none matches.  The tunnel handler then dials
`getContainerIp(containerName) + ":" + destPort` — an empty lookup makes it
dial `":<port>"`, a port on the server host itself. -/

/-- One address as reported by the container runtime. -/
structure NetAddr where
  family : String
  address : String
deriving DecidableEq, Repr

/-- One network interface as reported by the container runtime. -/
structure NetIface where
  addresses : List NetAddr
deriving DecidableEq, Repr

/-- The address filter in `getContainerIp`: family `inet` and the first two
characters of the address literally `"10"`. -/
def addrMatch (a : NetAddr) : Bool :=
  a.family == "inet" && a.address.take 2 == "10"

/-- First matching address across the interfaces, in iteration order. -/
def firstTenAddr : List NetIface → Option String
  | [] => none
  | n :: rest =>
    match n.addresses.find? addrMatch with
    | some a => some a.address
    | none => firstTenAddr rest

/-- `getContainerIp(name)`: `""` when the state query failed (`none`) or the
network map is empty, otherwise the first matching address or `""`. -/
def getContainerIp (state : Option (List NetIface)) : String :=
  match state with
  | none => ""
  | some nets =>
    if nets.length = 0 then ""
    else
      match firstTenAddr nets with
      | some a => a
      | none => ""

/-- Channel-level reject reasons used by the handler. -/
inductive RejectReason
  | connectionFailed
  | prohibited
deriving DecidableEq, Repr

/-- Observable effects of `DirectTCPChannelHandler`, in order. -/
inductive TcpEffect
  | rejectChannel (r : RejectReason)  -- newChan.Reject before any Accept
  | acceptChannel                     -- newChan.Accept
  | lateReject (r : RejectReason)     -- newChan.Reject after Accept already ran
  | dialTcp (addr : String)           -- net.Dial("tcp", addr)
  | proxy                             -- bidirectional io.Copy until closed
  | closeChannel                      -- deferred channel.Close
deriving DecidableEq, Repr

/-- The `direct-tcpip` payload `(dest_host, dest_port, origin...)`. -/
structure TcpPayload where
  destAddr : String
  destPort : Nat
  originAddr : String
  originPort : Nat
deriving DecidableEq, Repr

/-- Inputs of one `DirectTCPChannelHandler` invocation. -/
structure TunnelInput where
  payload : Option TcpPayload          -- none models an unmarshal failure
  fwdAllowed : Bool                    -- LocalPortForwardingCallback verdict
  acceptOk : Bool                      -- does newChan.Accept succeed
  containerName : Option String        -- ctx.Value("containerName")
  sandboxState : Option (List NetIface) -- instance state for that sandbox
  knownChallenges : List String        -- names with an existing challenge dir
  dialOk : Bool                        -- does net.Dial succeed
deriving Repr

/-- `DirectTCPChannelHandler` as the ordered list of effects it performs:
parse failure and a denying forwarding callback reject the channel; the
channel is then accepted; only after acceptance are the context, payload
and challenge checks made (their rejects hit an already-accepted channel);
the dial target is `getContainerIp(...) + ":" + destPort`. -/
def DirectTCPChannelHandler (inp : TunnelInput) : List TcpEffect :=
  match inp.payload with
  | none => [.rejectChannel .connectionFailed]
  | some p =>
    if !inp.fwdAllowed then [.rejectChannel .prohibited]
    else if !inp.acceptOk then []
    else
      match inp.containerName with
      | none => [.acceptChannel, .closeChannel]
      | some _ =>
        if p.destAddr == "" || p.destPort == 0 then
          [.acceptChannel, .lateReject .connectionFailed, .closeChannel]
        else if !(inp.knownChallenges.contains p.destAddr) then
          [.acceptChannel, .lateReject .connectionFailed, .closeChannel]
        else
          let addr := getContainerIp inp.sandboxState ++ ":" ++ toString p.destPort
          if !inp.dialOk then [.acceptChannel, .dialTcp addr, .closeChannel]
          else [.acceptChannel, .dialTcp addr, .proxy, .closeChannel]

/-- An invocation with a valid payload and callback but no sandbox bound to
the connection (no challenge-user was requested on this connection). -/
def noSandboxInput : TunnelInput :=
  { payload := some ⟨"web", 8000, "127.0.0.1", 50000⟩,
    fwdAllowed := true, acceptOk := true, containerName := none,
    sandboxState := none, knownChallenges := ["web"], dialOk := true }

/-- Counterexample to claim C8 as stated: with no sandbox associated to the
connection, the channel is accepted (and then closed), not rejected. -/
theorem tunnel_accepts_without_sandbox :
    DirectTCPChannelHandler noSandboxInput =
      [.acceptChannel, .closeChannel] ∧
    TcpEffect.acceptChannel ∈ DirectTCPChannelHandler noSandboxInput ∧
    (∀ r, TcpEffect.rejectChannel r ∉ DirectTCPChannelHandler noSandboxInput) := by
  refine ⟨by decide, by decide, ?_⟩
  intro r
  cases r <;> decide

/-- Claim C8 (amended): a pre-accept reject happens only for a payload
parse failure or a denying port-forwarding callback; with a valid payload
the channel is accepted before the sandbox and challenge checks, so a
connection without a sandbox leads to an accepted-then-closed channel, and
an unknown `dest_host` to a reject issued on the already-accepted channel;
a dial is attempted only when a sandbox is bound and `dest_host` names a
known challenge, at address `getContainerIp(...) + ":" + destPort`; bytes
are proxied only when the dial succeeded, and a failed dial merely closes
the accepted channel. -/
theorem directTCP_accept_behavior (inp : TunnelInput) :
    (∀ r, TcpEffect.rejectChannel r ∈ DirectTCPChannelHandler inp →
      inp.payload = none ∨ inp.fwdAllowed = false) ∧
    (∀ p, inp.payload = some p → inp.fwdAllowed = true → inp.acceptOk = true →
      inp.containerName = none →
      DirectTCPChannelHandler inp = [.acceptChannel, .closeChannel]) ∧
    (∀ addr, TcpEffect.dialTcp addr ∈ DirectTCPChannelHandler inp →
      inp.containerName ≠ none ∧
      ∃ p, inp.payload = some p ∧
        inp.knownChallenges.contains p.destAddr = true ∧
        addr = getContainerIp inp.sandboxState ++ ":" ++ toString p.destPort) ∧
    (TcpEffect.proxy ∈ DirectTCPChannelHandler inp → inp.dialOk = true) := by
  obtain ⟨pay, fwd, acc, cname, sstate, known, dOk⟩ := inp
  refine ⟨?_, ?_, ?_, ?_⟩
  · intro r h
    unfold DirectTCPChannelHandler at h
    cases pay with
    | none => exact Or.inl rfl
    | some p =>
      simp only at h
      cases fwd with
      | false => exact Or.inr rfl
      | true =>
        exfalso
        simp only [Bool.not_true, Bool.false_eq_true, if_false] at h
        cases acc with
        | false => simp at h
        | true =>
          simp only [Bool.not_true, Bool.false_eq_true, if_false] at h
          cases cname with
          | none => simp at h
          | some _ =>
            simp only at h
            by_cases h1 : (p.destAddr == "" || p.destPort == 0) = true
            · rw [if_pos h1] at h
              simp at h
            · rw [if_neg h1] at h
              by_cases h2 : known.contains p.destAddr = true
              · rw [if_neg (by rw [h2]; simp)] at h
                by_cases h3 : dOk = true
                · rw [if_neg (by rw [h3]; simp)] at h
                  simp at h
                · have h3f : dOk = false := by
                    cases hc : dOk
                    · rfl
                    · exact absurd hc h3
                  rw [if_pos (by rw [h3f]; rfl)] at h
                  simp at h
              · have h2f : known.contains p.destAddr = false := by
                  cases hc : known.contains p.destAddr
                  · rfl
                  · exact absurd hc h2
                rw [if_pos (by rw [h2f]; rfl)] at h
                simp at h
  · intro p hpay hfwd hacc hcn
    subst hpay; subst hfwd; subst hacc; subst hcn
    rfl
  · intro addr h
    unfold DirectTCPChannelHandler at h
    cases pay with
    | none => simp at h
    | some p =>
      simp only at h
      cases fwd with
      | false => simp at h
      | true =>
        simp only [Bool.not_true, Bool.false_eq_true, if_false] at h
        cases acc with
        | false => simp at h
        | true =>
          simp only [Bool.not_true, Bool.false_eq_true, if_false] at h
          cases cname with
          | none => simp at h
          | some nm =>
            simp only at h
            by_cases h1 : (p.destAddr == "" || p.destPort == 0) = true
            · rw [if_pos h1] at h
              simp at h
            · rw [if_neg h1] at h
              by_cases h2 : known.contains p.destAddr = true
              · rw [if_neg (by rw [h2]; simp)] at h
                refine ⟨by simp, p, rfl, h2, ?_⟩
                by_cases h3 : dOk = true
                · rw [if_neg (by rw [h3]; simp)] at h
                  simp only [List.mem_cons] at h
                  rcases h with h | h | h | h
                  · exact TcpEffect.noConfusion h
                  · exact (TcpEffect.dialTcp.inj h.symm).symm ▸ rfl
                  · exact TcpEffect.noConfusion h
                  · simp at h
                · have h3f : dOk = false := by
                    cases hc : dOk
                    · rfl
                    · exact absurd hc h3
                  rw [if_pos (by rw [h3f]; rfl)] at h
                  simp only [List.mem_cons] at h
                  rcases h with h | h | h
                  · exact TcpEffect.noConfusion h
                  · exact (TcpEffect.dialTcp.inj h.symm).symm ▸ rfl
                  · simp at h
              · have h2f : known.contains p.destAddr = false := by
                  cases hc : known.contains p.destAddr
                  · rfl
                  · exact absurd hc h2
                rw [if_pos (by rw [h2f]; rfl)] at h
                simp at h
  · intro h
    unfold DirectTCPChannelHandler at h
    cases pay with
    | none => simp at h
    | some p =>
      simp only at h
      cases fwd with
      | false => simp at h
      | true =>
        simp only [Bool.not_true, Bool.false_eq_true, if_false] at h
        cases acc with
        | false => simp at h
        | true =>
          simp only [Bool.not_true, Bool.false_eq_true, if_false] at h
          cases cname with
          | none => simp at h
          | some nm =>
            simp only at h
            by_cases h1 : (p.destAddr == "" || p.destPort == 0) = true
            · rw [if_pos h1] at h
              simp at h
            · rw [if_neg h1] at h
              by_cases h2 : known.contains p.destAddr = true
              · rw [if_neg (by rw [h2]; simp)] at h
                cases dOk with
                | true => rfl
                | false => simp at h
              · have h2f : known.contains p.destAddr = false := by
                  cases hc : known.contains p.destAddr
                  · rfl
                  · exact absurd hc h2
                rw [if_pos (by rw [h2f]; rfl)] at h
                simp at h

/-- Witness for claim C8 (amended): on the no-sandbox input the handler
accepts then closes. -/
theorem directTCP_accept_behavior_witness :
    DirectTCPChannelHandler noSandboxInput = [.acceptChannel, .closeChannel] :=
  (directTCP_accept_behavior noSandboxInput).2.1
    ⟨"web", 8000, "127.0.0.1", 50000⟩ rfl rfl rfl rfl

/-! ## Empty container IP and the host-directed dial -/

/-- Split on `.`, keeping empty parts (so they fail numeric parsing). -/
def splitDots : List Char → List Char → List (List Char)
  | [], cur => [cur.reverse]
  | c :: rest, cur =>
    if c = '.' then cur.reverse :: splitDots rest []
    else splitDots rest (c :: cur)

/-- Parse a non-empty all-digit character list as a decimal number. -/
def parseDecNatAux : List Char → Nat → Option Nat
  | [], acc => some acc
  | c :: rest, acc =>
    if c.isDigit then parseDecNatAux rest (acc * 10 + (c.toNat - 48))
    else none

/-- Parse a dotted-quad component. -/
def parseDecNat (cs : List Char) : Option Nat :=
  if cs.isEmpty then none else parseDecNatAux cs 0

/-- Spec-side predicate, from the claim's words: is the string a
private-range (RFC 1918) dotted-quad IPv4 address — `10.0.0.0/8`,
`172.16.0.0/12` or `192.168.0.0/16`? -/
def specPrivateRangeIPv4 (s : String) : Bool :=
  match (splitDots s.toList []).map parseDecNat with
  | [some a, some b, some c, some d] =>
    decide (a ≤ 255) && decide (b ≤ 255) && decide (c ≤ 255) &&
      decide (d ≤ 255) &&
      (a == 10 || (a == 172 && decide (16 ≤ b) && decide (b ≤ 31)) ||
        (a == 192 && b == 168))
  | _ => false

/-- An instance reporting only the CGNAT address `100.64.1.2`. -/
def cgnatIfaces : List NetIface := [⟨[⟨"inet", "100.64.1.2"⟩]⟩]

/-- Counterexample to claim C10 as stated: an instance can report no
private-range IPv4 address and yet `getContainerIp` returns a non-empty
string, because the code's filter is the literal two-character prefix
`"10"`, which also matches `100.64.1.2`. -/
theorem containerIp_nonempty_without_private_addr :
    (∀ n ∈ cgnatIfaces, ∀ a ∈ n.addresses,
      specPrivateRangeIPv4 a.address = false) ∧
    getContainerIp (some cgnatIfaces) = "100.64.1.2" := by
  constructor
  · decide
  · decide

/-- No interface has an address passing the code's `inet`-and-`"10"`-prefix
filter exactly when `firstTenAddr` finds nothing. -/
theorem firstTenAddr_eq_none (nets : List NetIface)
    (h : nets.all (fun n => n.addresses.all (fun a => !(addrMatch a))) = true) :
    firstTenAddr nets = none := by
  induction nets with
  | nil => rfl
  | cons n rest ih =>
    rw [List.all_cons, Bool.and_eq_true] at h
    have hfind : n.addresses.find? addrMatch = none := by
      rw [List.find?_eq_none]
      intro a ha
      have := List.all_eq_true.1 h.1 a ha
      simp only [Bool.not_eq_true'] at this
      simp [this]
    unfold firstTenAddr
    rw [hfind]
    exact ih h.2

/-- Claim C10 (amended): when the sandbox instance reports no address that
passes the code's filter — family `inet` with the literal string prefix
`"10"`; in particular when it reports no addresses at all because it has
not finished starting — `getContainerIp` returns the empty string, and the
tunnel handler proceeds to dial `":<dest_port>"`, a port on the server
host itself, instead of failing the channel. -/
theorem containerIp_empty_dials_host (nets : List NetIface)
    (inp : TunnelInput) (p : TcpPayload)
    (hmatch : nets.all (fun n => n.addresses.all (fun a => !(addrMatch a))) = true)
    (hstate : inp.sandboxState = some nets)
    (hpay : inp.payload = some p)
    (hfwd : inp.fwdAllowed = true)
    (hacc : inp.acceptOk = true)
    (hcn : inp.containerName = some "sandbox")
    (hda : (p.destAddr == "") = false)
    (hdp : (p.destPort == 0) = false)
    (hkn : inp.knownChallenges.contains p.destAddr = true) :
    getContainerIp (some nets) = "" ∧
    TcpEffect.dialTcp (":" ++ toString p.destPort) ∈
      DirectTCPChannelHandler inp := by
  have hip : getContainerIp (some nets) = "" := by
    have hsome : getContainerIp (some nets) =
        if nets.length = 0 then ""
        else match firstTenAddr nets with
             | some a => a
             | none => "" := rfl
    rw [hsome, firstTenAddr_eq_none _ hmatch]
    simp
  refine ⟨hip, ?_⟩
  unfold DirectTCPChannelHandler
  rw [hpay]
  simp only [hfwd, Bool.not_true, Bool.false_eq_true, if_false]
  rw [hacc]
  simp only [Bool.not_true, Bool.false_eq_true, if_false]
  rw [hcn]
  simp only
  rw [if_neg (by rw [hda, hdp]; simp)]
  rw [if_neg (by rw [hkn]; simp)]
  rw [hstate, hip]
  have haddr : ("" : String) ++ ":" ++ toString p.destPort =
      ":" ++ toString p.destPort := by
    simp
  rw [haddr]
  by_cases hd : inp.dialOk = true
  · rw [if_neg (by rw [hd]; simp)]
    simp
  · have hdf : inp.dialOk = false := by
      cases hc : inp.dialOk
      · rfl
      · exact absurd hc hd
    rw [if_pos (by rw [hdf]; rfl)]
    simp

/-- A tunnel invocation whose sandbox has not yet obtained any address. -/
def notReadyInput : TunnelInput :=
  { payload := some ⟨"web", 8000, "127.0.0.1", 50000⟩,
    fwdAllowed := true, acceptOk := true, containerName := some "sandbox",
    sandboxState := some [], knownChallenges := ["web"], dialOk := true }

/-- Witness for claim C10 (amended): with an empty network list the lookup
returns `""` and the handler dials `":8000"` on the host. -/
theorem containerIp_empty_dials_host_witness :
    getContainerIp (some ([] : List NetIface)) = "" ∧
    TcpEffect.dialTcp ":8000" ∈ DirectTCPChannelHandler notReadyInput :=
  containerIp_empty_dials_host [] notReadyInput ⟨"web", 8000, "127.0.0.1", 50000⟩
    (by decide) rfl rfl rfl rfl rfl (by decide) (by decide) (by decide)

end Ctfsh
